import Mathlib

/-!
Verification of the MedAID-ML majority-voting ensemble notebook
(`src/medaidml/ensemble/mayority_voting.ipynb`).

The notebook's core reducer is
  `majority_voting(predictions) = np.apply_along_axis(lambda x: np.bincount(x).argmax(), axis=0, arr=predictions)`
which, for each column (sample), counts occurrences of each non-negative
label value with `np.bincount` and takes the first index achieving the
maximal count with `argmax`.  `np.bincount` raises a `ValueError` when the
input contains a negative entry; we model the whole reducer as an
`Except String` value that errors exactly when some entry is negative
(NumPy raises at the first offending column; either way the call returns
no consensus vector, which is the observable behaviour we model).
-/

namespace MedAidML

/-- Maximum of a list of naturals, 0 for the empty list (the largest value
occurring in a `np.bincount` input, which fixes the length of the count
array). -/
def listMax (xs : List Nat) : Nat := xs.foldr max 0

/-- Model of `np.bincount`: for a non-empty list the array of occurrence
counts indexed by value `0 .. max`, of length `max + 1`; `np.bincount` of an
empty array is the empty array. -/
def bincount (xs : List Nat) : List Nat :=
  if xs = [] then [] else (List.range (listMax xs + 1)).map (fun v => xs.count v)

/-- Model of `np.argmax`: the first index at which the list attains its
maximal value. -/
def argmax (xs : List Nat) : Nat := xs.indexOf (listMax xs)

/-- The per-column vote `np.bincount(x).argmax()`. -/
def vote (col : List Nat) : Nat := argmax (bincount col)

/-- Column `i` of a row-major matrix, as extracted by
`np.apply_along_axis(..., axis=0, ...)` on the `(M, N)` array built from the
rows (meaningful when every row has length greater than `i`). -/
def column (rows : List (List Int)) (i : Nat) : List Int :=
  rows.map (fun r => r.getD i 0)

/-- Model of the notebook's `majority_voting`: per column, the label with
the highest occurrence count, first (lowest) index on ties; a `ValueError`
when any entry is negative, exactly as `np.bincount` raises. -/
def majority_voting (rows : List (List Int)) : Except String (List Int) :=
  if rows.any (fun r => r.any (fun x => decide (x < 0))) then
    Except.error "ValueError: negative entries are not allowed in bincount"
  else
    Except.ok ((List.range (rows.headD []).length).map
      (fun i => ((vote ((column rows i).map Int.toNat) : Nat) : Int)))

/-! Basic facts about `listMax`. -/

theorem le_listMax {xs : List Nat} {x : Nat} (h : x ∈ xs) : x ≤ listMax xs := by
  induction xs with
  | nil => cases h
  | cons a l ih =>
    rcases List.mem_cons.mp h with rfl | hl
    · exact Nat.le_max_left _ _
    · exact le_trans (ih hl) (Nat.le_max_right _ _)

theorem listMax_mem {xs : List Nat} (h : xs ≠ []) : listMax xs ∈ xs := by
  induction xs with
  | nil => exact absurd rfl h
  | cons a l ih =>
    cases l with
    | nil => simp [listMax]
    | cons b m =>
      show max a (listMax (b :: m)) ∈ a :: b :: m
      rcases max_choice a (listMax (b :: m)) with hm | hm
      · rw [hm]; exact List.mem_cons_self _ _
      · rw [hm]; exact List.mem_cons_of_mem _ (ih (by simp))

/-! Basic facts about `bincount`. -/

theorem bincount_length {xs : List Nat} (h : xs ≠ []) :
    (bincount xs).length = listMax xs + 1 := by
  simp [bincount, h]

theorem bincount_getElem {xs : List Nat} (h : xs ≠ []) (v : Nat)
    (hv : v < (bincount xs).length) : (bincount xs)[v] = xs.count v := by
  simp only [bincount, h, if_neg, ite_false] at hv ⊢
  rw [List.getElem_map]
  congr 1
  exact List.getElem_range _ _

theorem count_eq_zero_of_gt_listMax {xs : List Nat} {v : Nat}
    (hv : listMax xs < v) : xs.count v = 0 := by
  rw [List.count_eq_zero]
  intro hmem
  exact absurd (le_listMax hmem) (Nat.not_le_of_lt hv)

/-! Properties of `vote`:  maximality of the chosen label's count,
membership in the column, boundedness, and lowest-value tie-breaking. -/

theorem vote_lt (col : List Nat) (h : col ≠ []) :
    vote col < (bincount col).length := by
  have hmem : listMax (bincount col) ∈ bincount col := by
    apply listMax_mem
    intro hemp
    have := bincount_length h
    rw [hemp] at this
    simp at this
  exact List.indexOf_lt_length.mpr hmem

theorem vote_le_listMax (col : List Nat) (h : col ≠ []) :
    vote col ≤ listMax col := by
  have := vote_lt col h
  rw [bincount_length h] at this
  omega

theorem count_vote (col : List Nat) (h : col ≠ []) :
    col.count (vote col) = listMax (bincount col) := by
  have hlt := vote_lt col h
  have := bincount_getElem h (vote col) hlt
  rw [← this]
  exact (List.getElem_indexOf hlt).symm ▸ rfl

theorem count_le_count_vote (col : List Nat) (h : col ≠ []) (w : Nat) :
    col.count w ≤ col.count (vote col) := by
  rw [count_vote col h]
  by_cases hw : w ≤ listMax col
  · have hwlt : w < (bincount col).length := by rw [bincount_length h]; omega
    have hg : (bincount col)[w] = col.count w := bincount_getElem h w hwlt
    have hmem : col.count w ∈ bincount col := by
      rw [← hg]; exact List.getElem_mem hwlt
    exact le_listMax hmem
  · rw [count_eq_zero_of_gt_listMax (Nat.lt_of_not_le hw)]
    exact Nat.zero_le _

theorem vote_mem (col : List Nat) (h : col ≠ []) : vote col ∈ col := by
  rcases List.exists_mem_of_ne_nil col h with ⟨x, hx⟩
  have hxpos : 0 < col.count x := List.count_pos_iff.mpr hx
  have := count_le_count_vote col h x
  exact List.count_pos_iff.mp (by omega)

theorem vote_min_of_tie (col : List Nat) (h : col ≠ []) (w : Nat)
    (hw : col.count w = col.count (vote col)) : vote col ≤ w := by
  by_contra hlt
  push_neg at hlt
  have hvlt := vote_lt col h
  have hwlt : w < (bincount col).length := lt_trans hlt hvlt
  have hfind : w < List.findIdx (fun x => x == listMax (bincount col)) (bincount col) := by
    simpa [vote, argmax, List.indexOf] using hlt
  have hne := List.not_of_lt_findIdx hfind
  simp only [beq_eq_false_iff_ne, ne_eq] at hne
  apply hne
  rw [bincount_getElem h w hwlt, hw, count_vote col h]

/-! Transfer between the `Int`-valued columns read from the CSV files and
the `Nat`-valued view that `np.bincount` works on. -/

theorem count_map_toNat {col : List Int} (hpos : ∀ x ∈ col, 0 ≤ x) (w : Nat) :
    (col.map Int.toNat).count w = col.count (w : Int) := by
  induction col with
  | nil => rfl
  | cons a l ih =>
    have ha : 0 ≤ a := hpos a (List.mem_cons_self _ _)
    have hl : ∀ x ∈ l, 0 ≤ x := fun x hx => hpos x (List.mem_cons_of_mem _ hx)
    simp only [List.map_cons, List.count_cons, ih hl]
    congr 1
    by_cases hw : a = (w : Int)
    · subst hw; simp
    · have : a.toNat ≠ w := by omega
      simp [hw, this]

theorem count_neg_eq_zero {col : List Int} (hpos : ∀ x ∈ col, 0 ≤ x) {w : Int}
    (hw : w < 0) : col.count w = 0 := by
  rw [List.count_eq_zero]
  intro hmem
  exact absurd (hpos w hmem) (by omega)

/-- The vote of a non-empty column of non-negative integers, seen back in
`Int`:  it belongs to the column, its count is maximal, and among the
labels of maximal count it is the smallest (the `argmax` tie-break). -/
theorem voteI_spec (col : List Int) (hne : col ≠ []) (hpos : ∀ x ∈ col, 0 ≤ x) :
    ((vote (col.map Int.toNat) : Nat) : Int) ∈ col ∧
    (∀ w : Int, col.count w ≤ col.count ((vote (col.map Int.toNat) : Nat) : Int)) ∧
    (∀ w : Int, col.count w = col.count ((vote (col.map Int.toNat) : Nat) : Int) →
      ((vote (col.map Int.toNat) : Nat) : Int) ≤ w) := by
  have hneN : col.map Int.toNat ≠ [] := by
    simpa using hne
  have hcv : col.count ((vote (col.map Int.toNat) : Nat) : Int)
      = (col.map Int.toNat).count (vote (col.map Int.toNat)) :=
    (count_map_toNat hpos _).symm
  have hmemI : ((vote (col.map Int.toNat) : Nat) : Int) ∈ col := by
    have hm := vote_mem (col.map Int.toNat) hneN
    rcases List.mem_map.mp hm with ⟨y, hy, hyv⟩
    have : ((vote (col.map Int.toNat) : Nat) : Int) = y := by
      have := hpos y hy
      omega
    rw [this]; exact hy
  refine ⟨hmemI, ?_, ?_⟩
  · intro w
    by_cases hw : 0 ≤ w
    · have : col.count w = (col.map Int.toNat).count w.toNat := by
        rw [count_map_toNat hpos w.toNat]
        congr 1
        omega
      rw [this, hcv]
      exact count_le_count_vote _ hneN _
    · rw [count_neg_eq_zero hpos (by omega)]
      exact Nat.zero_le _
  · intro w hw
    have hposcnt : 0 < col.count ((vote (col.map Int.toNat) : Nat) : Int) :=
      List.count_pos_iff.mpr hmemI
    by_cases hwn : 0 ≤ w
    · have hcw : col.count w = (col.map Int.toNat).count w.toNat := by
        rw [count_map_toNat hpos w.toNat]
        congr 1
        omega
      have := vote_min_of_tie (col.map Int.toNat) hneN w.toNat
        (by rw [← hcw, hw, hcv])
      omega
    · rw [count_neg_eq_zero hpos (by omega)] at hw
      omega

/-! Evaluation of `majority_voting` on matrices with no negative entry. -/

theorem column_length (rows : List (List Int)) (i : Nat) :
    (column rows i).length = rows.length := by
  simp [column]

theorem column_pos {rows : List (List Int)}
    (hpos : ∀ r ∈ rows, ∀ x ∈ r, 0 ≤ x) (i : Nat) :
    ∀ x ∈ column rows i, 0 ≤ x := by
  intro x hx
  rcases List.mem_map.mp hx with ⟨r, hr, hrx⟩
  by_cases hi : i < r.length
  · have : r.getD i 0 ∈ r := by
      rw [List.getD_eq_getElem r 0 hi]
      exact List.getElem_mem hi
    rw [← hrx]
    exact hpos r hr _ this
  · rw [← hrx, List.getD_eq_default r 0 (by omega)]

theorem column_ne_nil {rows : List (List Int)} (h : rows ≠ []) (i : Nat) :
    column rows i ≠ [] := by
  simpa [column] using h

theorem majority_voting_ok {rows : List (List Int)}
    (hpos : ∀ r ∈ rows, ∀ x ∈ r, 0 ≤ x) :
    majority_voting rows = Except.ok ((List.range (rows.headD []).length).map
      (fun i => ((vote ((column rows i).map Int.toNat) : Nat) : Int))) := by
  have hcond : ¬ (rows.any (fun r => r.any (fun x => decide (x < 0))) = true) := by
    intro hc
    rw [List.any_eq_true] at hc
    obtain ⟨r, hr, hrany⟩ := hc
    rw [List.any_eq_true] at hrany
    obtain ⟨x, hx, hxlt⟩ := hrany
    have := hpos r hr x hx
    simp only [decide_eq_true_eq] at hxlt
    omega
  simp only [majority_voting]
  rw [if_neg hcond]

theorem majority_voting_getD {rows : List (List Int)} {i N : Nat}
    (hN : (rows.headD []).length = N) (hi : i < N) :
    ((List.range (rows.headD []).length).map
      (fun j => ((vote ((column rows j).map Int.toNat) : Nat) : Int))).getD i 0
      = ((vote ((column rows i).map Int.toNat) : Nat) : Int) := by
  subst hN
  have hlen : i < ((List.range (rows.headD []).length).map
      (fun j => ((vote ((column rows j).map Int.toNat) : Nat) : Int))).length := by
    simpa using hi
  rw [List.getD_eq_getElem _ 0 hlen, List.getElem_map, List.getElem_range]

theorem headD_length {rows : List (List Int)} {N : Nat} (hne : rows ≠ [])
    (hrect : ∀ r ∈ rows, r.length = N) : (rows.headD []).length = N := by
  cases rows with
  | nil => exact absurd rfl hne
  | cons q rest => exact hrect q (List.mem_cons_self _ _)

/-- Majority voting over a matrix whose rows are all the same list `r` of
non-negative labels returns `r` itself. -/
theorem majority_voting_of_all_eq (r : List Int) (rows : List (List Int))
    (hne : rows ≠ []) (hall : ∀ q ∈ rows, q = r) (hpos : ∀ x ∈ r, 0 ≤ x) :
    majority_voting rows = Except.ok r := by
  have hpos' : ∀ q ∈ rows, ∀ x ∈ q, 0 ≤ x := by
    intro q hq x hx
    exact hpos x ((hall q hq) ▸ hx)
  rw [majority_voting_ok hpos']
  congr 1
  have hhead : (rows.headD []).length = r.length :=
    headD_length hne (fun q hq => by rw [hall q hq])
  rw [hhead]
  apply List.ext_getElem
  · simp
  · intro i h1 h2
    rw [List.getElem_map, List.getElem_range]
    have hallcol : ∀ b ∈ column rows i, b = r.getD i 0 := by
      intro b hb
      rcases List.mem_map.mp hb with ⟨q, hq, hqb⟩
      rw [← hqb, hall q hq]
    have hv := (voteI_spec (column rows i) (column_ne_nil hne i)
      (column_pos hpos' i)).1
    rw [hallcol _ hv, List.getD_eq_getElem r 0 h2]

/-- Maximum of a list of integers with neutral element 0 (an upper bound
for all entries of a column of non-negative labels). -/
def intMax (xs : List Int) : Int := xs.foldr max 0

theorem le_intMax {xs : List Int} {x : Int} (h : x ∈ xs) : x ≤ intMax xs := by
  induction xs with
  | nil => cases h
  | cons a l ih =>
    rcases List.mem_cons.mp h with rfl | hl
    · exact le_max_left _ _
    · exact le_trans (ih hl) (le_max_right _ _)

/-- C1: for every 2-D integer prediction matrix of shape (M, N) with M ≥ 1
rows, N ≥ 1 columns and non-negative entries, `majority_voting` returns a
1-D integer vector of length N whose element i is the most frequent value
among column i across the M rows: it occurs in column i, its occurrence
count is maximal, and on ties it is the smallest label of maximal count
(the tie-break policy). -/
theorem majority_voting_most_frequent (rows : List (List Int)) (N : Nat)
    (hne : rows ≠ []) (hN : 0 < N) (hrect : ∀ r ∈ rows, r.length = N)
    (hpos : ∀ r ∈ rows, ∀ x ∈ r, 0 ≤ x) :
    ∃ out : List Int, majority_voting rows = Except.ok out ∧ out.length = N ∧
      ∀ i, i < N →
        out.getD i 0 ∈ column rows i ∧
        (∀ w : Int, (column rows i).count w ≤ (column rows i).count (out.getD i 0)) ∧
        (∀ w : Int, (column rows i).count w = (column rows i).count (out.getD i 0) →
          out.getD i 0 ≤ w) := by
  have hhead := headD_length hne hrect
  refine ⟨_, majority_voting_ok hpos, by rw [List.length_map, List.length_range, hhead], ?_⟩
  intro i hi
  rw [majority_voting_getD hhead hi]
  exact voteI_spec (column rows i) (column_ne_nil hne i) (column_pos hpos i)

/-- Witness for C1 on the concrete matrix [[0,1],[1,1]]. -/
theorem majority_voting_most_frequent_witness :
    ∃ out : List Int, majority_voting [[0,1],[1,1]] = Except.ok out ∧ out.length = 2 ∧
      ∀ i, i < 2 →
        out.getD i 0 ∈ column [[0,1],[1,1]] i ∧
        (∀ w : Int, (column [[0,1],[1,1]] i).count w
          ≤ (column [[0,1],[1,1]] i).count (out.getD i 0)) ∧
        (∀ w : Int, (column [[0,1],[1,1]] i).count w
          = (column [[0,1],[1,1]] i).count (out.getD i 0) → out.getD i 0 ≤ w) :=
  majority_voting_most_frequent [[0,1],[1,1]] 2 (by decide) (by decide)
    (by decide) (by decide)

/-- C2: whenever two or more labels share the maximum occurrence count in a
column, `majority_voting` selects the smallest such label for that column. -/
theorem majority_voting_tie_lowest (rows : List (List Int)) (N : Nat)
    (hne : rows ≠ []) (hrect : ∀ r ∈ rows, r.length = N)
    (hpos : ∀ r ∈ rows, ∀ x ∈ r, 0 ≤ x) :
    ∃ out : List Int, majority_voting rows = Except.ok out ∧
      ∀ i, i < N → ∀ u v : Int, u ≠ v →
        (column rows i).count u = (column rows i).count v →
        (∀ w : Int, (column rows i).count w ≤ (column rows i).count u) →
        out.getD i 0 ≤ u ∧ out.getD i 0 ≤ v ∧
        (column rows i).count (out.getD i 0) = (column rows i).count u := by
  have hhead := headD_length hne hrect
  refine ⟨_, majority_voting_ok hpos, ?_⟩
  intro i hi u v huv hcnt hmax
  rw [majority_voting_getD hhead hi]
  obtain ⟨hmem, hge, htie⟩ :=
    voteI_spec (column rows i) (column_ne_nil hne i) (column_pos hpos i)
  have hcu : (column rows i).count ((vote ((column rows i).map Int.toNat) : Nat) : Int)
      = (column rows i).count u :=
    le_antisymm (hmax _) (hge u)
  exact ⟨htie u hcu.symm, htie v (by rw [← hcnt, ← hcu]), hcu⟩

/-- Witness for C2: the 2-row matrix with rows [0] and [1] ties its single
column between labels 0 and 1, and the vote comes out 0. -/
theorem majority_voting_tie_lowest_witness :
    (∃ out : List Int, majority_voting [[0],[1]] = Except.ok out ∧
      ∀ i, i < 1 → ∀ u v : Int, u ≠ v →
        (column [[0],[1]] i).count u = (column [[0],[1]] i).count v →
        (∀ w : Int, (column [[0],[1]] i).count w ≤ (column [[0],[1]] i).count u) →
        out.getD i 0 ≤ u ∧ out.getD i 0 ≤ v ∧
        (column [[0],[1]] i).count (out.getD i 0) = (column [[0],[1]] i).count u) ∧
    majority_voting [[0],[1]] = Except.ok [0] :=
  ⟨majority_voting_tie_lowest [[0],[1]] 1 (by decide) (by decide) (by decide),
   by rfl⟩

/-- C9: the 3 × 3 scenario from the specification: majority voting on
[[0,1,1],[1,1,0],[0,1,1]] yields the consensus [0,1,1]. -/
theorem majority_voting_scenario_3x3 :
    majority_voting [[0,1,1],[1,1,0],[0,1,1]] = Except.ok [0,1,1] := by rfl

/-- C10: every element of the consensus returned by `majority_voting` on a
valid matrix actually occurs in its column — it was predicted by at least
one model there — and does not exceed the maximum label of that column. -/
theorem majority_voting_result_occurs (rows : List (List Int)) (N : Nat)
    (hne : rows ≠ []) (hN : 0 < N) (hrect : ∀ r ∈ rows, r.length = N)
    (hpos : ∀ r ∈ rows, ∀ x ∈ r, 0 ≤ x) :
    ∃ out : List Int, majority_voting rows = Except.ok out ∧ out.length = N ∧
      ∀ i, i < N → out.getD i 0 ∈ column rows i ∧ out.getD i 0 ≤ intMax (column rows i) := by
  have hhead := headD_length hne hrect
  refine ⟨_, majority_voting_ok hpos, by rw [List.length_map, List.length_range, hhead], ?_⟩
  intro i hi
  rw [majority_voting_getD hhead hi]
  have hmem := (voteI_spec (column rows i) (column_ne_nil hne i) (column_pos hpos i)).1
  exact ⟨hmem, le_intMax hmem⟩

/-- Witness for C10 on the concrete matrix [[2,0],[2,5],[7,5]]. -/
theorem majority_voting_result_occurs_witness :
    ∃ out : List Int, majority_voting [[2,0],[2,5],[7,5]] = Except.ok out ∧
      out.length = 2 ∧ ∀ i, i < 2 → out.getD i 0 ∈ column [[2,0],[2,5],[7,5]] i ∧
        out.getD i 0 ≤ intMax (column [[2,0],[2,5],[7,5]] i) :=
  majority_voting_result_occurs [[2,0],[2,5],[7,5]] 2 (by decide) (by decide)
    (by decide) (by decide)

theorem count_zero_add_count_one {col : List Int}
    (h : ∀ x ∈ col, x = 0 ∨ x = 1) :
    col.count 0 + col.count 1 = col.length := by
  induction col with
  | nil => rfl
  | cons a l ih =>
    have hl : ∀ x ∈ l, x = 0 ∨ x = 1 := fun x hx => h x (List.mem_cons_of_mem _ hx)
    have hrec := ih hl
    rcases h a (List.mem_cons_self _ _) with rfl | rfl
    · have h0 : List.count 0 (0 :: l) = List.count 0 l + 1 := by
        simp [List.count_cons]
      have h1 : List.count 1 ((0 : Int) :: l) = List.count 1 l := by
        simp [List.count_cons]
      rw [h0, h1, List.length_cons]
      omega
    · have h0 : List.count 0 ((1 : Int) :: l) = List.count 0 l := by
        simp [List.count_cons]
      have h1 : List.count 1 ((1 : Int) :: l) = List.count 1 l + 1 := by
        simp [List.count_cons]
      rw [h0, h1, List.length_cons]
      omega

/-- C5: on a prediction matrix with an odd number of rows and entries in
0, 1, no column ties (the two labels never reach equal counts), and each
element of the consensus is the label held by strictly more than half of
the rows of its column. -/
theorem majority_voting_odd_binary (rows : List (List Int)) (N : Nat)
    (hne : rows ≠ []) (hodd : rows.length % 2 = 1)
    (hrect : ∀ r ∈ rows, r.length = N)
    (hbin : ∀ r ∈ rows, ∀ x ∈ r, x = 0 ∨ x = 1) :
    ∃ out : List Int, majority_voting rows = Except.ok out ∧ out.length = N ∧
      ∀ i, i < N →
        (column rows i).count 0 ≠ (column rows i).count 1 ∧
        ∃ l : Int, out.getD i 0 = l ∧
          2 * (column rows i).count l > rows.length := by
  have hpos : ∀ r ∈ rows, ∀ x ∈ r, 0 ≤ x := by
    intro r hr x hx
    rcases hbin r hr x hx with rfl | rfl <;> omega
  have hhead := headD_length hne hrect
  refine ⟨_, majority_voting_ok hpos, by rw [List.length_map, List.length_range, hhead], ?_⟩
  intro i hi
  have hcolbin : ∀ x ∈ column rows i, x = 0 ∨ x = 1 := by
    intro x hx
    rcases List.mem_map.mp hx with ⟨r, hr, hrx⟩
    by_cases hilt : i < r.length
    · have hmem : r.getD i 0 ∈ r := by
        rw [List.getD_eq_getElem r 0 hilt]
        exact List.getElem_mem hilt
      rw [← hrx]
      exact hbin r hr _ hmem
    · rw [← hrx, List.getD_eq_default r 0 (by omega)]
      exact Or.inl rfl
  have hsum : (column rows i).count 0 + (column rows i).count 1 = rows.length := by
    rw [count_zero_add_count_one hcolbin, column_length]
  obtain ⟨hmem, hge, -⟩ :=
    voteI_spec (column rows i) (column_ne_nil hne i) (column_pos hpos i)
  rw [majority_voting_getD hhead hi]
  have hneq : (column rows i).count 0 ≠ (column rows i).count 1 := by
    intro heq
    omega
  refine ⟨hneq, _, rfl, ?_⟩
  rcases hcolbin _ hmem with hv0 | hv1
  · have h1 := hge 1
    rw [hv0] at h1 ⊢
    omega
  · have h0 := hge 0
    rw [hv1] at h0 ⊢
    omega

/-- Witness for C5 on the 3-row binary matrix [[0,1],[1,1],[1,0]]. -/
theorem majority_voting_odd_binary_witness :
    ∃ out : List Int, majority_voting [[0,1],[1,1],[1,0]] = Except.ok out ∧
      out.length = 2 ∧ ∀ i, i < 2 →
        (column [[0,1],[1,1],[1,0]] i).count 0 ≠ (column [[0,1],[1,1],[1,0]] i).count 1 ∧
        ∃ l : Int, out.getD i 0 = l ∧
          2 * (column [[0,1],[1,1],[1,0]] i).count l > ([[0,1],[1,1],[1,0]] : List (List Int)).length :=
  majority_voting_odd_binary [[0,1],[1,1],[1,0]] 2 (by decide) (by decide)
    (by decide) (by decide)

/-- C6: on a prediction matrix whose rows are all identical — in particular
the single-model case M = 1 — `majority_voting` returns that row unchanged. -/
theorem majority_voting_identical_rows (rows : List (List Int)) (r : List Int)
    (hne : rows ≠ []) (hall : ∀ q ∈ rows, q = r) (hpos : ∀ x ∈ r, 0 ≤ x) :
    majority_voting rows = Except.ok r :=
  majority_voting_of_all_eq r rows hne hall hpos

/-- Witness for C6 on the single-row matrix [[2,0,3]]. -/
theorem majority_voting_identical_rows_witness :
    majority_voting [[2,0,3]] = Except.ok [2,0,3] :=
  majority_voting_identical_rows [[2,0,3]] [2,0,3] (by decide) (by decide) (by decide)

/-- C7: on a prediction matrix containing a negative label value, the
reducer fails with an error (the `ValueError` that `np.bincount` raises)
instead of returning a consensus vector. -/
theorem majority_voting_negative_error (rows : List (List Int))
    (hneg : ∃ r ∈ rows, ∃ x ∈ r, x < 0) :
    ∃ e, majority_voting rows = Except.error e := by
  obtain ⟨r, hr, x, hx, hxlt⟩ := hneg
  have hcond : rows.any (fun r => r.any (fun x => decide (x < 0))) = true :=
    List.any_eq_true.mpr ⟨r, hr, List.any_eq_true.mpr ⟨x, hx, by simpa using hxlt⟩⟩
  refine ⟨"ValueError: negative entries are not allowed in bincount", ?_⟩
  simp only [majority_voting]
  rw [if_pos hcond]

/-- Witness for C7 on the matrix [[0,-1],[1,1]]. -/
theorem majority_voting_negative_error_witness :
    ∃ e, majority_voting [[0,-1],[1,1]] = Except.error e :=
  majority_voting_negative_error [[0,-1],[1,1]] (by decide)

/-! Model of the per-experiment loading loop.  For each path the notebook
reads a CSV file with a `Prediction` column and a `label` column, appends
the prediction column to `model_preds`, and sets `y_true_loaded` from the
`label` column only when it is still `None` — i.e. only for the first file. -/

/-- One per-model results file: its `Prediction` column and its `label`
column, in row order. -/
structure ModelFile where
  Prediction : List Int
  label : List Int

/-- The notebook's loading loop for one experiment: fold over the model
files in path-list order, accumulating the prediction matrix and the
ground-truth vector (`y_true_loaded`, initially `None`, set from `label`
only when still `None`). -/
def loadExperiment (files : List ModelFile) : List (List Int) × Option (List Int) :=
  files.foldl
    (fun acc df =>
      (acc.1 ++ [df.Prediction], if acc.2.isNone then some df.label else acc.2))
    ([], none)

theorem loadExperiment_aux (files : List ModelFile) (ps : List (List Int))
    (y : List Int) :
    files.foldl
      (fun acc df =>
        (acc.1 ++ [df.Prediction], if acc.2.isNone then some df.label else acc.2))
      (ps, some y)
      = (ps ++ files.map ModelFile.Prediction, some y) := by
  induction files generalizing ps with
  | nil => simp
  | cons f rest ih =>
    simp only [List.foldl_cons, Option.isNone_some, Bool.false_eq_true, if_false,
      List.map_cons]
    rw [ih]
    simp

/-- C4: the ground-truth vector produced by the loading loop equals the
`label` column of the first model file, whatever the later files hold; the
prediction matrix stacks the `Prediction` columns in path-list order. -/
theorem loadExperiment_first_label (f : ModelFile) (rest : List ModelFile) :
    (loadExperiment (f :: rest)).2 = some f.label ∧
    (loadExperiment (f :: rest)).1 = (f :: rest).map ModelFile.Prediction := by
  simp only [loadExperiment, List.foldl_cons, Option.isNone_none, if_true,
    List.nil_append, List.map_cons]
  rw [loadExperiment_aux]
  simp

/-! Model of `save_ensemble_predictions` and of reading the written file
back.  `pd.DataFrame(ensembler_pred, columns=['prediction']).to_csv(file,
index=False)` writes a header line `prediction` followed by one decimal
numeral per sample; `pd.read_csv` parses each data line back to an
integer. -/

/-- Decimal digit as a character, `0 ↦ '0', …, 9 ↦ '9'`. -/
def digitChar (d : Nat) : Char := Char.ofNat (48 + d)

/-- Value of a decimal digit character. -/
def charDigit (c : Char) : Nat := c.toNat - 48

/-- Little-endian decimal digits of `n`, computed with `fuel` as a
structural bound (`decAux n n` yields the digits of `n`). -/
def decAux : Nat → Nat → List Nat
  | 0, _ => []
  | fuel+1, n => if n = 0 then [] else (n % 10) :: decAux fuel (n / 10)

/-- Decimal numeral of a natural number, most significant digit first, as
printed in the CSV cells. -/
def decChars (n : Nat) : List Char :=
  if n = 0 then ['0'] else ((decAux n n).reverse).map digitChar

/-- Decimal numeral of an integer (a possible leading minus sign). -/
def intDecChars (x : Int) : List Char :=
  if x < 0 then '-' :: decChars x.natAbs else decChars x.toNat

/-- Parse a decimal numeral, most significant digit first. -/
def decParse (cs : List Char) : Nat :=
  Nat.ofDigits 10 ((cs.map charDigit).reverse)

/-- Parse an optionally negated decimal numeral. -/
def intParse (cs : List Char) : Int :=
  if cs.headD ' ' = '-' then -(decParse cs.tail : Int) else (decParse cs : Int)

/-- Model of `save_ensemble_predictions`: the CSV lines written for a
consensus vector — the header `prediction` and one numeral per sample. -/
def save_ensemble_predictions (ensembler_pred : List Int) : List String :=
  "prediction" :: ensembler_pred.map (fun n => String.mk (intDecChars n))

/-- Model of reading the written predictions file back with `pd.read_csv`:
the header line names the single column and every following line is parsed
as an integer. -/
def read_predictions (lines : List String) : Option (String × List Int) :=
  match lines with
  | [] => none
  | header :: rest => some (header, rest.map (fun s => intParse s.data))

theorem charDigit_digitChar {d : Nat} (h : d < 10) :
    charDigit (digitChar d) = d := by
  interval_cases d <;> decide

theorem digitChar_ne_dash {d : Nat} (h : d < 10) : digitChar d ≠ '-' := by
  interval_cases d <;> decide

theorem ofDigits_decAux : ∀ fuel n, n ≤ fuel → Nat.ofDigits 10 (decAux fuel n) = n := by
  intro fuel
  induction fuel with
  | zero =>
    intro n h
    have : n = 0 := by omega
    subst this
    simp [decAux, Nat.ofDigits]
  | succ f ih =>
    intro n h
    by_cases hn : n = 0
    · subst hn; simp [decAux, Nat.ofDigits]
    · simp only [decAux, hn, ite_false]
      rw [Nat.ofDigits_cons]
      have hdiv : n / 10 < n := Nat.div_lt_self (by omega) (by norm_num)
      rw [ih (n / 10) (by omega)]
      omega

theorem decAux_digit_lt : ∀ fuel n d, d ∈ decAux fuel n → d < 10 := by
  intro fuel
  induction fuel with
  | zero => intro n d h; cases h
  | succ f ih =>
    intro n d h
    by_cases hn : n = 0
    · subst hn; simp [decAux] at h
    · simp only [decAux, hn, ite_false] at h
      rcases List.mem_cons.mp h with rfl | hrest
      · omega
      · exact ih _ _ hrest

theorem decParse_decChars (n : Nat) : decParse (decChars n) = n := by
  by_cases h : n = 0
  · subst h; decide
  · simp only [decChars, h, ite_false, decParse, List.map_map]
    have hmap : ((decAux n n).reverse).map (charDigit ∘ digitChar)
        = (decAux n n).reverse := by
      apply List.map_congr_left ?_ |>.trans (List.map_id _)
      intro d hd
      have hdd : d < 10 := decAux_digit_lt n n d (List.mem_reverse.mp hd)
      exact charDigit_digitChar hdd
    rw [hmap, List.reverse_reverse, ofDigits_decAux n n (le_refl n)]

theorem decChars_mem_ne_dash (n : Nat) : ∀ c ∈ decChars n, c ≠ '-' := by
  intro c hc
  by_cases h : n = 0
  · subst h
    simp only [decChars, ite_true, List.mem_singleton] at hc
    subst hc; decide
  · simp only [decChars, h, ite_false] at hc
    rcases List.mem_map.mp hc with ⟨d, hd, hdc⟩
    have hdd : d < 10 := decAux_digit_lt n n d (List.mem_reverse.mp hd)
    rw [← hdc]
    exact digitChar_ne_dash hdd

theorem decChars_headD_ne_dash (n : Nat) : (decChars n).headD ' ' ≠ '-' := by
  cases hd : decChars n with
  | nil => decide
  | cons c cs =>
    have hc : c ∈ decChars n := by rw [hd]; exact List.mem_cons_self _ _
    simpa using decChars_mem_ne_dash n c hc

theorem intParse_intDecChars {x : Int} (hx : 0 ≤ x) :
    intParse (intDecChars x) = x := by
  have hneg : ¬ x < 0 := by omega
  simp only [intDecChars, hneg, ite_false, intParse,
    decChars_headD_ne_dash x.toNat, ite_false, decParse_decChars]
  omega

/-- C8: writing a consensus vector with `save_ensemble_predictions`,
reading the file back, and reducing the resulting one-row prediction matrix
with `majority_voting` returns the original consensus vector. -/
theorem predictions_roundtrip (v : List Int) (hpos : ∀ x ∈ v, 0 ≤ x) :
    read_predictions (save_ensemble_predictions v) = some ("prediction", v) ∧
    majority_voting [v] = Except.ok v := by
  constructor
  · simp only [save_ensemble_predictions, read_predictions, List.map_map]
    have hmap : v.map ((fun s => intParse s.data) ∘ (fun n => String.mk (intDecChars n)))
        = v := by
      apply List.map_congr_left ?_ |>.trans (List.map_id _)
      intro x hxv
      exact intParse_intDecChars (hpos x hxv)
    rw [hmap]
  · exact majority_voting_of_all_eq v [v] (by simp)
      (fun q hq => List.mem_singleton.mp hq) hpos

/-- Witness for C8 on the consensus vector [0, 1, 1]. -/
theorem predictions_roundtrip_witness :
    read_predictions (save_ensemble_predictions [0,1,1])
      = some ("prediction", [0,1,1]) ∧
    majority_voting [[0,1,1]] = Except.ok [0,1,1] :=
  predictions_roundtrip [0,1,1] (by decide)

/-! Model of `save_confusion_matrix`.  `sklearn.metrics.confusion_matrix`
with no `labels` argument indexes the table by the sorted distinct labels
occurring in either vector; the notebook then wraps the result in
`pd.DataFrame(cm, index=['Actual 0', 'Actual 1'], columns=['Predicted 0',
'Predicted 1'])`, whose two hardcoded index labels force the shape (2, 2):
pandas raises a `ValueError` whenever the matrix row count differs from 2
(the matrix is square, so a single check on the row count captures both
the index and the columns mismatch), and the dataframe is then written
with `to_csv` including the index column. -/

/-- Sorted distinct class labels occurring in either vector, the index set
`sklearn.metrics.confusion_matrix` tabulates over. -/
def classesOf (y_true y_pred : List Int) : List Int :=
  ((y_true ++ y_pred).dedup).insertionSort (· ≤ ·)

/-- Model of `sklearn.metrics.confusion_matrix`: the square table whose
entry (i, j) counts the samples with true label equal to class i and
predicted label equal to class j, classes sorted ascending. -/
def confusion_matrix (y_true y_pred : List Int) : List (List Nat) :=
  (classesOf y_true y_pred).map (fun a =>
    (classesOf y_true y_pred).map (fun p =>
      ((y_true.zip y_pred).filter (fun q => q.1 == a && q.2 == p)).length))

/-- One CSV line of the labeled matrix: the row label followed by the
counts of its row. -/
def renderRow (lab : String) (counts : List Nat) : String :=
  lab ++ String.join (counts.map (fun c => "," ++ String.mk (decChars c)))

/-- Model of the notebook's `save_confusion_matrix`: the CSV lines written
when the confusion matrix fits the two hardcoded row and column labels,
and the pandas `ValueError` otherwise. -/
def save_confusion_matrix (y_true y_pred : List Int) : Except String (List String) :=
  if (confusion_matrix y_true y_pred).length = 2 then
    Except.ok ((",Predicted 0,Predicted 1") ::
      List.zipWith renderRow ["Actual 0", "Actual 1"] (confusion_matrix y_true y_pred))
  else
    Except.error "ValueError: Shape of passed values does not match the implied shape"

/-- C3 (counterexample): on ground truth [0, 1, 2] and consensus [0, 1, 2],
drawn from 3 distinct classes, the writer does not produce a labeled 3 × 3
table — the hardcoded two row labels make pandas raise a `ValueError`. -/
theorem save_confusion_matrix_three_classes_error :
    save_confusion_matrix [0,1,2] [0,1,2]
      = Except.error "ValueError: Shape of passed values does not match the implied shape" := by
  rfl

/-- C3 (amended): when the two vectors are drawn from exactly 2 distinct
class labels, the writer produces a 2 × 2 table labeled with rows
`Actual 0`, `Actual 1` and columns `Predicted 0`, `Predicted 1`, written
as CSV lines, whose entry (i, j) counts the samples with true label the
i-th class and predicted label the j-th class; for any other number of
classes it raises a `ValueError`. -/
theorem save_confusion_matrix_binary (y_true y_pred : List Int)
    (h2 : (classesOf y_true y_pred).length = 2) :
    save_confusion_matrix y_true y_pred
      = Except.ok ((",Predicted 0,Predicted 1") ::
          List.zipWith renderRow ["Actual 0", "Actual 1"]
            (confusion_matrix y_true y_pred)) ∧
    (confusion_matrix y_true y_pred).length = 2 ∧
    (∀ row ∈ confusion_matrix y_true y_pred, row.length = 2) ∧
    ∀ i j, i < 2 → j < 2 →
      ((confusion_matrix y_true y_pred).getD i []).getD j 0
        = ((y_true.zip y_pred).filter (fun q =>
            q.1 == (classesOf y_true y_pred).getD i 0 &&
            q.2 == (classesOf y_true y_pred).getD j 0)).length := by
  have hcm : (confusion_matrix y_true y_pred).length = 2 := by
    simp [confusion_matrix, h2]
  refine ⟨?_, hcm, ?_, ?_⟩
  · simp only [save_confusion_matrix]
    rw [if_pos hcm]
  · intro row hrow
    rcases List.mem_map.mp hrow with ⟨a, ha, hrow'⟩
    rw [← hrow']
    simp [h2]
  · intro i j hi hj
    have hi' : i < (classesOf y_true y_pred).length := by omega
    have hj' : j < (classesOf y_true y_pred).length := by omega
    have hcmi : i < (confusion_matrix y_true y_pred).length := by omega
    rw [List.getD_eq_getElem _ [] hcmi]
    simp only [confusion_matrix]
    rw [List.getElem_map]
    have hjlen : j < ((classesOf y_true y_pred).map (fun p =>
        ((y_true.zip y_pred).filter (fun q =>
          q.1 == (classesOf y_true y_pred)[i] && q.2 == p)).length)).length := by
      simpa using hj'
    rw [List.getD_eq_getElem _ 0 hjlen, List.getElem_map,
      List.getD_eq_getElem _ 0 hi', List.getD_eq_getElem _ 0 hj']

/-- Witness for C3's amended statement on the specification's scenario:
ground truth [0,1,0,1] and consensus [0,1,1,1] give the 2 × 2 CSV table
with rows `Actual 0,1,1` and `Actual 1,0,2`. -/
theorem save_confusion_matrix_binary_witness :
    (",Predicted 0,Predicted 1") ::
        List.zipWith renderRow ["Actual 0", "Actual 1"]
          (confusion_matrix [0,1,0,1] [0,1,1,1])
      = [",Predicted 0,Predicted 1", "Actual 0,1,1", "Actual 1,0,2"] ∧
    ((classesOf [0,1,0,1] [0,1,1,1]).length = 2 ∧
      (save_confusion_matrix [0,1,0,1] [0,1,1,1]
        = Except.ok ((",Predicted 0,Predicted 1") ::
            List.zipWith renderRow ["Actual 0", "Actual 1"]
              (confusion_matrix [0,1,0,1] [0,1,1,1])) ∧
      (confusion_matrix [0,1,0,1] [0,1,1,1]).length = 2 ∧
      (∀ row ∈ confusion_matrix [0,1,0,1] [0,1,1,1], row.length = 2) ∧
      ∀ i j, i < 2 → j < 2 →
        ((confusion_matrix [0,1,0,1] [0,1,1,1]).getD i []).getD j 0
          = (([0,1,0,1].zip [0,1,1,1]).filter (fun q =>
              q.1 == (classesOf [0,1,0,1] [0,1,1,1]).getD i 0 &&
              q.2 == (classesOf [0,1,0,1] [0,1,1,1]).getD j 0)).length)) :=
  ⟨by decide, by rfl, save_confusion_matrix_binary [0,1,0,1] [0,1,1,1] (by rfl)⟩
